import Mathlib

/-!
Verification development of `main.go` of rds-download-logs.

The program lists, follows and downloads the log files of an RDS database
instance.  The embedding below follows `src/main.go` function by function.
Calls that leave the program (the RDS API, `net/http`, the request signer,
the file system, the clock) are answered by an explicit environment, and
every observable action is recorded, in program order, in a trace of
effects.  Go strings are modelled by Lean strings (sequences of characters);
`'/'` is ASCII, so splitting on it agrees with Go's byte-wise splitting.
The library functions whose results the properties depend on (`strings.Split`,
`filepath.Join`, and `url.Parse`, by which `http.NewRequest` reads the scheme and
the host of a request from its URL string) are modelled after their Go sources.
-/

namespace RdsDownloadLogs

/-! ## Library functions used by the program: `strings.Split`, `filepath.Join` -/

namespace strings

/-- Pieces of `s` between occurrences of the one-character separator `sep`
(`strings.Split(s, string(sep))` on character lists): one piece more than there
are separators, the empty input giving one empty piece. -/
def splitChars (sep : Char) : List Char → List (List Char)
  | [] => [[]]
  | c :: cs =>
    if c = sep then [] :: splitChars sep cs
    else
      match splitChars sep cs with
      | [] => [[c]]
      | p :: ps => (c :: p) :: ps

/-- Go `strings.Split(s, sep)` for a separator of one character. -/
def Split (s : String) (sep : Char) : List String :=
  (splitChars sep s.data).map String.mk

/-- Go `strings.Join(elems, sep)`. -/
def Join (elems : List String) (sep : String) : String :=
  sep.intercalate elems

/-- Go `strings.Cut(s, string(sep))` on character lists: the text before the first
`sep` and the text after it, or `s` and nothing when `sep` does not occur. -/
def cutChars (sep : Char) (s : List Char) : List Char × List Char :=
  if sep ∈ s then (s.takeWhile (fun c => c != sep), (s.dropWhile (fun c => c != sep)).tail)
  else (s, [])

/-- The text before and the text after the last `sep` of `s` (`s[:i]` and
`s[i+1:]` for `i = strings.LastIndex(s, string(sep))`), if `sep` occurs. -/
def splitLastChars (sep : Char) : List Char → Option (List Char × List Char)
  | [] => none
  | c :: cs =>
    match splitLastChars sep cs with
    | some (before, after) => some (c :: before, after)
    | none => if c = sep then some ([], cs) else none

/-- Go `strings.Index(s, "%25")` on character lists. -/
def indexPercent25 : List Char → Option Nat
  | [] => none
  | c :: cs =>
    if (c :: cs).take 3 = ['%', '2', '5'] then some 0
    else (indexPercent25 cs).map (fun i => i + 1)

/-- Go `strings.LastIndex(s, string(sep))` on character lists: the index of the
last `sep`, or -1. -/
def LastIndex (s : List Char) (sep : Char) : Int :=
  match splitLastChars sep s with
  | some (before, _) => before.length
  | none => -1

end strings

namespace filepath

/-- Go `filepath.Separator` on Unix. -/
def Separator : Char := '/'

/-- State of the cleaning loop of `filepath.Clean`: the elements written so far
(last one first) and `dotdot`, the number of leading elements that a `..` may not
remove. -/
structure CleanState where
  out : List (List Char)
  dotdot : Nat

/-- One iteration of the loop of `filepath.Clean`, on the next path element `e`
(the text between two separators). -/
def cleanStep (rooted : Bool) (st : CleanState) (e : List Char) : CleanState :=
  if e = [] then st                       -- empty path element
  else if e = ['.'] then st               -- . element
  else if e = ['.', '.'] then             -- .. element: remove to last separator
    if st.out.length > st.dotdot then { st with out := st.out.tail }
    else if !rooted then { out := e :: st.out, dotdot := st.out.length + 1 }
    else st
  else { st with out := e :: st.out }     -- real path element

/-- Go `filepath.Clean` on Unix (no volume names), on character lists. -/
def cleanChars (path : List Char) : List Char :=
  if path = [] then ['.']
  else
    let rooted := path.head? = some Separator
    let st := (strings.splitChars Separator path).foldl (cleanStep rooted) ⟨[], 0⟩
    let body := [Separator].intercalate st.out.reverse
    if rooted then Separator :: body
    else if body = [] then ['.']
    else body

/-- Go `filepath.Clean` on Unix. -/
def Clean (path : String) : String := String.mk (cleanChars path.data)

/-- Go `filepath.Join`: the elements from the first non-empty one on, joined by
the separator and cleaned; the empty string when all are empty. -/
def Join : List String → String
  | [] => ""
  | e :: rest =>
    if e ≠ "" then Clean (strings.Join (e :: rest) (String.singleton Separator))
    else Join rest

end filepath

/-! ## Library functions behind `http.NewRequest`: `url.Parse` -/

namespace url

/-- The fields of a Go `url.Userinfo`. -/
structure Userinfo where
  username : String
  password : String
  passwordSet : Bool
  deriving DecidableEq, Repr

/-- The fields of a Go `url.URL`; `RawPath` and `RawFragment`, which only keep the
original encoding of `Path` and `Fragment`, are left out. -/
structure URL where
  Scheme : String
  Opaque : String
  User : Option Userinfo
  Host : String
  Path : String
  ForceQuery : Bool
  RawQuery : String
  Fragment : String
  OmitHost : Bool
  deriving DecidableEq, Repr

/-- The modes of `unescape` that `Parse` uses. -/
inductive Encoding
  | encodePath
  | encodeHost
  | encodeZone
  | encodeUserPassword
  | encodeFragment
  deriving DecidableEq, Repr

/-- ASCII letters and digits. -/
def isAlnum (c : Char) : Bool :=
  ('a' ≤ c && c ≤ 'z') || ('A' ≤ c && c ≤ 'Z') || ('0' ≤ c && c ≤ '9')

/-- Go `ishex`. -/
def ishex (c : Char) : Bool :=
  ('0' ≤ c && c ≤ '9') || ('a' ≤ c && c ≤ 'f') || ('A' ≤ c && c ≤ 'F')

/-- Go `unhex`. -/
def unhex (c : Char) : Nat :=
  if '0' ≤ c && c ≤ '9' then c.toNat - '0'.toNat
  else if 'a' ≤ c && c ≤ 'f' then c.toNat - 'a'.toNat + 10
  else if 'A' ≤ c && c ≤ 'F' then c.toNat - 'A'.toNat + 10
  else 0

/-- The unreserved characters of RFC 3986, section 2.3: ASCII letters, digits and
`-`, `.`, `_`, `~`. -/
def isUnreserved (c : Char) : Bool :=
  isAlnum c || c ∈ ['-', '.', '_', '~']

/-- Go `shouldEscape(c, encodeHost)`: whether `c` may not appear as it is in a
host. -/
def shouldEscapeHost (c : Char) : Bool :=
  !(isAlnum c ||
    c ∈ ['!', '$', '&', '\'', '(', ')', '*', '+', ',', ';', '=', ':', '[', ']', '<', '>', '"'] ||
    c ∈ ['-', '_', '.', '~'])

/-- The first loop of Go `unescape`: whether every `%` starts a well-formed escape
that the mode admits, and no character is invalid in a host. -/
def unescapeValid (mode : Encoding) : List Char → Bool
  | [] => true
  | c :: cs =>
    if c = '%' then
      match cs with
      | h1 :: h2 :: rest =>
        if !(ishex h1 && ishex h2) then false
        else if mode = .encodeHost && unhex h1 < 8 && !(h1 = '2' && h2 = '5') then false
        else if mode = .encodeZone && !(h1 = '2' && h2 = '5') &&
            Char.ofNat (unhex h1 * 16 + unhex h2) != ' ' &&
            shouldEscapeHost (Char.ofNat (unhex h1 * 16 + unhex h2)) then false
        else unescapeValid mode rest
      | _ => false
    else if (mode = .encodeHost || mode = .encodeZone) && c.toNat < 0x80 &&
        shouldEscapeHost c then false
    else unescapeValid mode cs

/-- The second loop of Go `unescape`: every escape `%XX` replaced by the byte it
denotes, written as the character of that number. -/
def unescapeDecode : List Char → List Char
  | [] => []
  | c :: cs =>
    if c = '%' then
      match cs with
      | h1 :: h2 :: rest => Char.ofNat (unhex h1 * 16 + unhex h2) :: unescapeDecode rest
      | _ => []
    else c :: unescapeDecode cs

/-- Go `unescape(s, mode)`; `none` when it returns an error. -/
def unescape (s : List Char) (mode : Encoding) : Option (List Char) :=
  if !unescapeValid mode s then none
  else if '%' ∈ s then some (unescapeDecode s)
  else some s

/-- Go `stringContainsCTLByte`. -/
def stringContainsCTLByte (s : List Char) : Bool :=
  s.any (fun c => c.toNat < 0x20 || c.toNat == 0x7f)

/-- The loop of Go `getScheme` from index `i`, `first` saying that `i` is 0 and
`seen` holding the characters before `i`, last one first. -/
def getSchemeFrom (rawURL : List Char) : Bool → List Char → List Char →
    Option (List Char × List Char)
  | _, _, [] => some ([], rawURL)
  | first, seen, c :: cs =>
    if ('a' ≤ c && c ≤ 'z') || ('A' ≤ c && c ≤ 'Z') then
      getSchemeFrom rawURL false (c :: seen) cs
    else if ('0' ≤ c && c ≤ '9') || c = '+' || c = '-' || c = '.' then
      if first then some ([], rawURL) else getSchemeFrom rawURL false (c :: seen) cs
    else if c = ':' then
      if first then none else some (seen.reverse, cs)
    else some ([], rawURL)

/-- Go `getScheme`: the scheme and the rest; `none` for its error (a URL that
starts with a colon). -/
def getScheme (rawURL : List Char) : Option (List Char × List Char) :=
  getSchemeFrom rawURL true [] rawURL

/-- Go `validOptionalPort`. -/
def validOptionalPort (port : List Char) : Bool :=
  match port with
  | [] => true
  | c :: digits => c = ':' && digits.all (fun b => '0' ≤ b && b ≤ '9')

/-- Go `validUserinfo`. -/
def validUserinfo (s : List Char) : Bool :=
  s.all (fun r => isAlnum r ||
    r ∈ ['-', '.', '_', ':', '~', '!', '$', '&', '\'', '(', ')', '*', '+', ',', ';', '=', '%', '@'])

/-- Go `parseHost`; `none` when it returns an error. -/
def parseHost (host : List Char) : Option (List Char) :=
  if host.head? = some '[' then
    match strings.splitLastChars ']' host with
    | none => none
    | some (literal, colonPort) =>
      if !validOptionalPort colonPort then none
      else
        match strings.indexPercent25 literal with
        | some zone => do
          let host1 ← unescape (literal.take zone) .encodeHost
          let host2 ← unescape (literal.drop zone) .encodeZone
          let host3 ← unescape (']' :: colonPort) .encodeHost
          pure (host1 ++ host2 ++ host3)
        | none => unescape host .encodeHost
  else
    match strings.splitLastChars ':' host with
    | some (_, port) =>
      if !validOptionalPort (':' :: port) then none
      else unescape host .encodeHost
    | none => unescape host .encodeHost

/-- Go `parseAuthority`: the user information and the host; `none` when it returns
an error. -/
def parseAuthority (authority : List Char) : Option (Option Userinfo × List Char) :=
  match strings.splitLastChars '@' authority with
  | none => do
    let host ← parseHost authority
    pure (none, host)
  | some (userinfo, hostport) => do
    let host ← parseHost hostport
    if !validUserinfo userinfo then none
    else if ':' ∉ userinfo then do
      let username ← unescape userinfo .encodeUserPassword
      pure (some ⟨String.mk username, "", false⟩, host)
    else do
      let username ← unescape (strings.cutChars ':' userinfo).1 .encodeUserPassword
      let password ← unescape (strings.cutChars ':' userinfo).2 .encodeUserPassword
      pure (some ⟨String.mk username, String.mk password, true⟩, host)

/-- Go `parse(rawURL, false)`, on a URL without its fragment; `none` when it
returns an error. -/
def parse (rawURL : List Char) : Option URL :=
  if stringContainsCTLByte rawURL then none
  else if rawURL = ['*'] then some ⟨"", "", none, "", "*", false, "", "", false⟩
  else
    match getScheme rawURL with
    | none => none
    | some (scheme, rest) =>
      let scheme := scheme.map Char.toLower
      let forceQuery := rest.getLast? = some '?' && rest.count '?' = 1
      let rawQuery := if forceQuery then [] else (strings.cutChars '?' rest).2
      let rest := if forceQuery then rest.dropLast else (strings.cutChars '?' rest).1
      if rest.head? ≠ some '/' ∧ scheme ≠ [] then
        some ⟨String.mk scheme, String.mk rest, none, "", "", forceQuery, String.mk rawQuery, "",
          false⟩
      else if rest.head? ≠ some '/' ∧ ':' ∈ (strings.cutChars '/' rest).1 then none
      else if (scheme ≠ [] ∨ rest.take 3 ≠ ['/', '/', '/']) ∧ rest.take 2 = ['/', '/'] then
        let authority := (rest.drop 2).takeWhile (fun c => c != '/')
        let rest := (rest.drop 2).dropWhile (fun c => c != '/')
        match parseAuthority authority with
        | none => none
        | some (user, host) =>
          match unescape rest .encodePath with
          | none => none
          | some path =>
            some ⟨String.mk scheme, "", user, String.mk host, String.mk path, forceQuery,
              String.mk rawQuery, "", false⟩
      else
        match unescape rest .encodePath with
        | none => none
        | some path =>
          some ⟨String.mk scheme, "", none, "", String.mk path, forceQuery, String.mk rawQuery,
            "", scheme ≠ [] ∧ rest.head? = some '/'⟩

/-- Go `url.Parse`; `none` when it returns an error. -/
def Parse (rawURL : String) : Option URL :=
  let u := (strings.cutChars '#' rawURL.data).1
  let frag := (strings.cutChars '#' rawURL.data).2
  match parse u with
  | none => none
  | some url =>
    if frag = [] then some url
    else
      match unescape frag .encodeFragment with
      | none => none
      | some fragment => some { url with Fragment := String.mk fragment }

end url

namespace http

/-- Go `hasPort`: whether the last colon of `s` comes after its last `]`. -/
def hasPort (s : List Char) : Bool :=
  strings.LastIndex s ':' > strings.LastIndex s ']'

/-- Go `removeEmptyPort`: a host with a port loses a colon at its end
(`strings.TrimSuffix(host, ":")`). -/
def removeEmptyPort (host : List Char) : List Char :=
  if hasPort host then
    if host.getLast? = some ':' then host.dropLast else host
  else host

/-- The URL of the request that `http.NewRequest` builds from `rawURL`: the result
of `url.Parse` with the empty port removed from its host; `none` when `url.Parse`
returns an error, which `http.NewRequest` returns in turn. -/
def requestURL (rawURL : String) : Option url.URL :=
  (url.Parse rawURL).map (fun u => { u with Host := String.mk (removeEmptyPort u.Host.data) })

end http

/-! ## Data model -/

/-- A Go `error` value: its message, and whether its dynamic type implements
`awserr.Error` (what the type assertion in `followLog` asks). -/
structure GoError where
  Error : String
  isAwsErr : Bool
  deriving DecidableEq, Repr

/-- Command-line options (`type Opts struct`). -/
structure Opts where
  DatabaseInstance : String
  Region : String
  LogOutput : String
  Follow : Bool
  LogName : String
  Download : Bool
  PrintLogs : Bool
  deriving DecidableEq, Repr

/-- The application value (`type app struct`); its API clients are represented by
the `World` that answers their calls. -/
structure app where
  Options : Opts
  deriving DecidableEq, Repr

/-- The `rds.DescribeDBLogFilesInput` built by `getLogNames`. -/
structure DescribeDBLogFilesInput where
  DBInstanceIdentifier : String
  FilenameContains : String
  deriving DecidableEq, Repr

/-- One `*rds.DescribeDBLogFilesDetails`; `LogFileName` is a pointer. -/
structure DescribeDBLogFilesDetails where
  LogFileName : Option String
  deriving DecidableEq, Repr

/-- The `rds.DescribeDBLogFilesOutput`: a slice of pointers to details. -/
structure DescribeDBLogFilesOutput where
  DescribeDBLogFiles : List (Option DescribeDBLogFilesDetails)
  deriving DecidableEq, Repr

/-- The `rds.DownloadDBLogFilePortionInput` built by `getRecentEntries`. -/
structure DownloadDBLogFilePortionInput where
  DBInstanceIdentifier : String
  LogFileName : String
  Marker : String
  NumberOfLines : Int
  deriving DecidableEq, Repr

/-- The `rds.DownloadDBLogFilePortionOutput`; all three fields are pointers. -/
structure DownloadDBLogFilePortionOutput where
  AdditionalDataPending : Option Bool
  LogFileData : Option String
  Marker : Option String
  deriving DecidableEq, Repr

/-- What one call of `DownloadDBLogFilePortion` gives back: `(resp, err)`. -/
abbrev PortionReply := Option DownloadDBLogFilePortionOutput × Option GoError

/-- The `*http.Request` as far as the program determines it: the method and URL
string handed to `http.NewRequest`, the value assigned to `URL.Path` (`none` while
it is the one parsed from the URL string), the body, and the headers the signer
has set.  The scheme and the host of the request are those `http.requestURL`
parses from `URL`. -/
structure Request where
  Method : String
  URL : String
  Path : Option String
  Body : Option String
  Header : List (String × String)
  deriving DecidableEq, Repr

/-- The part of an `*http.Response` the program reads. -/
structure Response where
  StatusCode : Int
  Body : String
  deriving DecidableEq, Repr

/-- The error of the flag parser: `help` says it is a `*flag.Error` of type
`flag.ErrHelp`. -/
structure FlagError where
  help : Bool
  deriving DecidableEq, Repr

/-- The three capabilities `main` can dispatch to. -/
inductive Capability
  | enumeratePrint
  | follow
  | download
  deriving DecidableEq, Repr

/-- Go `time.Second`, in nanoseconds (the unit of `time.Duration`). -/
def time.Second : Int := 1000000000

/-- Observable actions, recorded in program order. -/
inductive Effect
  /-- Text written to standard output (`fmt.Print`, `fmt.Println`, `fmt.Printf`) -/
  | stdout (s : String)
  /-- A line written by the `log` package (`log.Println`, `log.Fatalln`) -/
  | log (s : String)
  /-- The call `RDS.DescribeDBLogFiles(input)` -/
  | describe (input : DescribeDBLogFilesInput)
  /-- The call `RDS.DownloadDBLogFilePortion(params)` -/
  | fetch (params : DownloadDBLogFilePortionInput)
  /-- The call `time.Sleep(d)`, `d` in nanoseconds -/
  | sleep (d : Int)
  /-- The call `http.NewRequest(method, url, body)` -/
  | newRequest (method url : String) (body : Option String)
  /-- The call `signer.Sign(req, body, service, region, time.Unix(t, 0))` -/
  | sign (req : Request) (body : Option String) (service region : String) (t : Int)
  /-- The call `client.Do(req)`: the request is sent -/
  | httpDo (req : Request)
  /-- The call `os.Create(path)` -/
  | create (path : String)
  /-- The call `io.Copy(out, resp.Body)` into the file created at `path` -/
  | copy (path : String) (body : String)
  /-- The deferred `resp.Body.Close()` -/
  | closeBody
  /-- The deferred `out.Close()` -/
  | closeFile (path : String)
  /-- Control reaches the code of a capability in `main` -/
  | dispatch (c : Capability)
  deriving DecidableEq, Repr

/-- The value of a Go panic. -/
inductive Panic
  /-- The argument of `panic(err)` -/
  | error (e : GoError)
  /-- A runtime error: index out of range `[index]` with length `len` -/
  | indexOutOfRange (index len : Nat)
  /-- A runtime error: nil pointer dereference -/
  | nilDereference
  deriving DecidableEq, Repr

/-- How a function call ends. -/
inductive Outcome (α : Type)
  /-- It returns `v` -/
  | ret (v : α)
  /-- It panics -/
  | panicked (p : Panic)
  /-- The process is terminated with this exit status (`os.Exit`, `log.Fatalln`) -/
  | exited (code : Int)
  /-- It is still running: the environment has no further reply for the call it is
  waiting on -/
  | blocked
  deriving DecidableEq, Repr

/-- A run: what was observed, and how it ended. -/
structure Run (α : Type) where
  trace : List Effect
  outcome : Outcome α
  deriving DecidableEq, Repr

/-- The environment of the program: the answers of the RDS API, of `net/http`, of
the v4 signer, of the file system, and the clock. -/
structure World where
  /-- Reply of `RDS.DescribeDBLogFiles` -/
  DescribeDBLogFiles : DescribeDBLogFilesInput → Option DescribeDBLogFilesOutput × Option GoError
  /-- The replies of the successive calls of `RDS.DownloadDBLogFilePortion` -/
  portions : List PortionReply
  /-- The error of `http.NewRequest(method, url, nil)`, if it rejects its arguments -/
  NewRequest : String → String → Option GoError
  /-- Reply of `signer.Sign`: the signature headers it sets on the request, or its error -/
  Sign : Request → Option String → String → String → Int → Except GoError (List (String × String))
  /-- Reply of `client.Do` -/
  Do : Request → Except GoError Response
  /-- The error of `os.Create(path)`, if any -/
  Create : String → Option GoError
  /-- The error of `io.Copy` of a body into the file at a path, if any -/
  Copy : String → String → Option GoError
  /-- Value of `time.Now().Unix()` -/
  now : Int

/-! ## The program -/

/-- The input `getLogNames` builds (lines 98-101); the call itself is answered by
`World.DescribeDBLogFiles`. -/
def getLogNamesInput (a : app) : DescribeDBLogFilesInput :=
  { DBInstanceIdentifier := a.Options.DatabaseInstance
    FilenameContains := a.Options.LogName }

/-- Method `getLogNames` (lines 97-104): returns what the provider returns. -/
def getLogNames (a : app) (w : World) :
    Run (Option DescribeDBLogFilesOutput × Option GoError) :=
  ⟨[.describe (getLogNamesInput a)], .ret (w.DescribeDBLogFiles (getLogNamesInput a))⟩

/-- The parameters `getRecentEntries` builds (lines 109-114): one line from the
start position `sPos`. -/
def getRecentEntriesParams (a : app) (sPos logName : String) : DownloadDBLogFilePortionInput :=
  { DBInstanceIdentifier := a.Options.DatabaseInstance
    LogFileName := logName
    Marker := sPos
    NumberOfLines := 1 }

/-- The error check of `followLog` (lines 124-128): the error the loop returns,
which is `err` when it is not nil and its type implements `awserr.Error`. -/
def returnedError (err : Option GoError) : Option GoError :=
  match err with
  | some e => if e.isAwsErr then some e else none
  | none => none

/-- The loop of `followLog` (lines 122-140) from cursor `sPos`, the provider
answering the successive fetches with `replies`.  Every iteration starts with the
fetch of `getRecentEntries`; with no reply left the loop is blocked in that
fetch. -/
def followLoop (a : app) (logName : String) : String → List PortionReply → Run (Option GoError)
  | sPos, [] => ⟨[.fetch (getRecentEntriesParams a sPos logName)], .blocked⟩
  | sPos, (resp, err) :: replies =>
    let fetch := Effect.fetch (getRecentEntriesParams a sPos logName)
    match returnedError err with
    | some e => ⟨[fetch], .ret (some e)⟩
    | none =>
      match resp with
      | none => ⟨[fetch], .panicked .nilDereference⟩
      | some r =>
        let data := match r.LogFileData with
          | some d => [Effect.stdout d]
          | none => []
        match r.Marker with
        | none => ⟨fetch :: data, .panicked .nilDereference⟩
        | some m =>
          match r.AdditionalDataPending with
          | none => ⟨fetch :: data, .panicked .nilDereference⟩
          | some pending =>
            let idle := if !pending then
                [Effect.stdout "No data pending. Sleeping 10 sec \n",
                 Effect.sleep (15 * time.Second)]
              else []
            let rest := followLoop a logName m replies
            ⟨fetch :: data ++ idle ++ rest.trace, rest.outcome⟩

/-- Method `followLog` (lines 119-141): the loop, started at cursor `"0"`. -/
def followLog (a : app) (w : World) (logName : String) : Run (Option GoError) :=
  followLoop a logName "0" w.portions

/-- The URL string `host` given to `http.NewRequest` (line 153). -/
def downloadHost (a : app) : String :=
  "https://rds." ++ a.Options.Region ++ ".amazonaws.com"

/-- The value assigned to `req.URL.Path` (line 161). -/
def downloadPath (a : app) (logName : String) : String :=
  "/v13/downloadCompleteLogFile/" ++ a.Options.DatabaseInstance ++ "/" ++ logName

/-- The request after lines 155-161: `http.NewRequest("GET", host, nil)` with its
`URL.Path` assigned; no header is set yet. -/
def downloadRequest (a : app) (logName : String) : Request :=
  { Method := "GET"
    URL := downloadHost a
    Path := some (downloadPath a logName)
    Body := none
    Header := [] }

/-- Method `downloadLogFile` (lines 146-196). -/
def downloadLogFile (a : app) (w : World) (logName : String) :
    Run (String × Option GoError) :=
  let host := downloadHost a
  let t0 := [Effect.newRequest "GET" host none]
  match w.NewRequest "GET" host with
  | some err => ⟨t0 ++ [.stdout (err.Error ++ "\n")], .ret ("", some err)⟩
  | none =>
    let req := downloadRequest a logName
    let t1 := t0 ++ [.sign req none "rds" a.Options.Region w.now]
    match w.Sign req none "rds" a.Options.Region w.now with
    | .error err => ⟨t1 ++ [.stdout (err.Error ++ "\n")], .ret ("", some err)⟩
    | .ok header =>
      let req := { req with Header := header }
      let t2 := t1 ++ [.httpDo req]
      match w.Do req with
      | .error err => ⟨t2 ++ [.log err.Error], .ret ("", some err)⟩
      | .ok resp =>
        let t3 := t2 ++ [.stdout ("Download request completed with status: " ++
          toString resp.StatusCode ++ " > " ++ downloadPath a logName ++ " \n")]
        -- defer resp.Body.Close()
        let fileName := strings.Split logName '/'
        match fileName[1]? with
        | none => ⟨t3 ++ [.closeBody], .panicked (.indexOutOfRange 1 fileName.length)⟩
        | some name =>
          let outputPath := filepath.Join [a.Options.LogOutput, name]
          let t4 := t3 ++ [.create outputPath]
          match w.Create outputPath with
          | some err => ⟨t4 ++ [.log err.Error, .closeBody], .ret ("", some err)⟩
          | none =>
            -- defer out.Close()
            let t5 := t4 ++ [.copy outputPath resp.Body]
            match w.Copy outputPath resp.Body with
            | some err => ⟨t5 ++ [.log err.Error], .exited 1⟩
            | none => ⟨t5 ++ [.closeFile outputPath, .closeBody], .ret (outputPath, none)⟩

/-- The loop of `main` printing the log file names (lines 87-89): the names
printed, and whether a nil pointer stopped the loop. -/
def printNames : List (Option DescribeDBLogFilesDetails) → List Effect × Bool
  | [] => ([], false)
  | none :: _ => ([], true)
  | some k :: ks =>
    match k.LogFileName with
    | none => ([], true)
    | some name =>
      let rest := printNames ks
      (Effect.stdout (name ++ "\n") :: rest.1, rest.2)

/-- The rest of `main` from line 76 on, for a non-empty log name: download, else
print. -/
def mainSaveOrPrint (opts : Opts) (a : app) (w : World)
    (l : Option DescribeDBLogFilesOutput) (t : List Effect) : Run Unit :=
  if opts.Download && opts.DatabaseInstance != "" then
    let d := downloadLogFile a w opts.LogName
    let t := t ++ [.dispatch .download] ++ d.trace
    match d.outcome with
    | .ret (_, some err) => ⟨t, .panicked (.error err)⟩
    | .ret (path, none) => ⟨t ++ [.stdout (path ++ "\n")], .exited 0⟩
    | .panicked p => ⟨t, .panicked p⟩
    | .exited c => ⟨t, .exited c⟩
    | .blocked => ⟨t, .blocked⟩
  else if a.Options.PrintLogs then
    let t := t ++ [.dispatch .enumeratePrint]
    match l with
    | none => ⟨t, .panicked .nilDereference⟩
    | some l =>
      let printed := printNames l.DescribeDBLogFiles
      if printed.2 then ⟨t ++ printed.1, .panicked .nilDereference⟩
      else ⟨t ++ printed.1, .exited 0⟩
  else ⟨t, .ret ()⟩

/-- Function `main` (lines 41-93), from the result of parsing the flags. -/
def main (parsed : Except FlagError Opts) (w : World) : Run Unit :=
  match parsed with
  | .error e => if e.help then ⟨[], .exited 0⟩ else ⟨[], .exited 1⟩
  | .ok opts =>
    let a : app := { Options := opts }
    let g := getLogNames a w
    match g.outcome with
    | .ret (_, some err) => ⟨g.trace, .panicked (.error err)⟩
    | .ret (l, none) =>
      if opts.LogName != "" then
        if opts.Follow then
          let f := followLog a w opts.LogName
          let t := g.trace ++ [.dispatch .follow] ++ f.trace
          match f.outcome with
          | .ret (some err) => ⟨t, .panicked (.error err)⟩
          | .ret none => mainSaveOrPrint opts a w l t
          | .panicked p => ⟨t, .panicked p⟩
          | .exited c => ⟨t, .exited c⟩
          | .blocked => ⟨t, .blocked⟩
        else mainSaveOrPrint opts a w l g.trace
      else ⟨g.trace, .ret ()⟩
    | .panicked p => ⟨g.trace, .panicked p⟩
    | .exited c => ⟨g.trace, .exited c⟩
    | .blocked => ⟨g.trace, .blocked⟩

/-! ## Observations on traces and the vocabulary of the specification -/

/-- The provider calls `DownloadDBLogFilePortion` of a trace, in order. -/
def fetches : List Effect → List DownloadDBLogFilePortionInput
  | [] => []
  | .fetch p :: t => p :: fetches t
  | _ :: t => fetches t

/-- The texts written to standard output in a trace, in order. -/
def stdoutOf : List Effect → List String
  | [] => []
  | .stdout s :: t => s :: stdoutOf t
  | _ :: t => stdoutOf t

/-- The durations of the sleeps of a trace, in order. -/
def sleepsOf : List Effect → List Int
  | [] => []
  | .sleep d :: t => d :: sleepsOf t
  | _ :: t => sleepsOf t

/-- The capabilities `main` dispatched to in a trace, in order. -/
def dispatched : List Effect → List Capability
  | [] => []
  | .dispatch c :: t => c :: dispatched t
  | _ :: t => dispatched t

/-- A successful provider response: no error, and a response carrying the new
marker and the pending flag; log data may be absent. -/
structure Portion where
  pending : Bool
  data : Option String
  marker : String
  deriving DecidableEq, Repr

/-- The reply `(resp, nil)` of a successful fetch. -/
def Portion.reply (p : Portion) : PortionReply :=
  (some { AdditionalDataPending := some p.pending
          LogFileData := p.data
          Marker := some p.marker }, none)

/-- What one cycle of `followLog` does between receiving the successful response
`p` and the next fetch. -/
def cycleEffects (p : Portion) : List Effect :=
  (match p.data with
    | some d => [Effect.stdout d]
    | none => []) ++
  (if p.pending then []
   else [Effect.stdout "No data pending. Sleeping 10 sec \n", Effect.sleep (15 * time.Second)])

/-- The substring of `s` after its first `'/'` (empty when there is none), in the
words of the specification. -/
def substringAfterFirstSlash (s : String) : String :=
  String.mk ((s.data.dropWhile (fun c => c != '/')).tail)

/-- The segment of `s` between its first `'/'` and its second `'/'`, or the end
of `s` when there is no second one. -/
def segmentAfterFirstSlash (s : String) : String :=
  String.mk ((substringAfterFirstSlash s).data.takeWhile (fun c => c != '/'))

/-- A world in which every call succeeds: two log files are listed, the provider
answers two fetches, the request is signed and answered with status 200. -/
def okWorld : World :=
  { DescribeDBLogFiles := fun _ =>
      (some ⟨[some ⟨some "error/log1"⟩, some ⟨some "error/log2"⟩]⟩, none)
    portions := [Portion.reply ⟨true, some "line1\n", "7"⟩, Portion.reply ⟨false, none, "9"⟩]
    NewRequest := fun _ _ => none
    Sign := fun _ _ _ _ _ => .ok [("Authorization", "AWS4-HMAC-SHA256")]
    Do := fun _ => .ok ⟨200, "log body"⟩
    Create := fun _ => none
    Copy := fun _ _ => none
    now := 1700000000 }

/-- Options naming instance `mydb`, region `eu-west-1`, output directory `/tmp`
and log `error/log1`, with no capability flag set. -/
def sampleOpts : Opts :=
  { DatabaseInstance := "mydb"
    Region := "eu-west-1"
    LogOutput := "/tmp"
    Follow := false
    LogName := "error/log1"
    Download := false
    PrintLogs := false }

/-! ## Lemmas on `strings.Split` -/

theorem splitChars_eq (sep : Char) (cs : List Char) :
    strings.splitChars sep cs =
      cs.takeWhile (fun c => c != sep) ::
        (if sep ∈ cs then strings.splitChars sep ((cs.dropWhile (fun c => c != sep)).tail)
         else []) := by
  induction cs with
  | nil => simp [strings.splitChars]
  | cons c cs ih =>
    by_cases h : c = sep
    · subst h
      simp [strings.splitChars]
    · have h2 : ¬ sep = c := fun e => h e.symm
      rw [strings.splitChars, if_neg h, ih]
      simp [h, h2]

theorem splitChars_one (cs : List Char) :
    (strings.splitChars '/' cs)[1]? =
      if '/' ∈ cs then
        some (((cs.dropWhile (fun c => c != '/')).tail).takeWhile (fun c => c != '/'))
      else none := by
  rw [splitChars_eq]
  by_cases h : '/' ∈ cs
  · rw [if_pos h, if_pos h, splitChars_eq]
    simp
  · rw [if_neg h, if_neg h]
    simp

theorem Split_one (s : String) :
    (strings.Split s '/')[1]? =
      if '/' ∈ s.data then some (segmentAfterFirstSlash s) else none := by
  unfold strings.Split
  rw [List.getElem?_map, splitChars_one]
  by_cases h : '/' ∈ s.data
  · simp [h, segmentAfterFirstSlash, substringAfterFirstSlash]
  · simp [h]

theorem Split_length_of_not_mem (s : String) (h : '/' ∉ s.data) :
    (strings.Split s '/').length = 1 := by
  unfold strings.Split
  rw [List.length_map, splitChars_eq, if_neg h]
  rfl

theorem not_mem_tail_dropWhile_of_count (cs : List Char) (h : cs.count '/' = 1) :
    '/' ∉ (cs.dropWhile (fun c => c != '/')).tail := by
  induction cs with
  | nil => simp
  | cons c cs ih =>
    by_cases hc : c = '/'
    · subst hc
      simp only [List.count_cons_self, Nat.add_eq_right] at h
      have : '/' ∉ cs := List.count_eq_zero.mp h
      simpa using this
    · have h2 : ¬ ('/' = c) := fun e => hc e.symm
      rw [List.count_cons_of_ne h2] at h
      simpa [hc] using ih h

/-! ## Lemmas on the follow loop -/

theorem fetches_append (s t : List Effect) : fetches (s ++ t) = fetches s ++ fetches t := by
  induction s with
  | nil => rfl
  | cons e s ih => cases e <;> simp [fetches, ih]

theorem stdoutOf_append (s t : List Effect) : stdoutOf (s ++ t) = stdoutOf s ++ stdoutOf t := by
  induction s with
  | nil => rfl
  | cons e s ih => cases e <;> simp [stdoutOf, ih]

theorem sleepsOf_append (s t : List Effect) : sleepsOf (s ++ t) = sleepsOf s ++ sleepsOf t := by
  induction s with
  | nil => rfl
  | cons e s ih => cases e <;> simp [sleepsOf, ih]

theorem dispatched_append (s t : List Effect) :
    dispatched (s ++ t) = dispatched s ++ dispatched t := by
  induction s with
  | nil => rfl
  | cons e s ih => cases e <;> simp [dispatched, ih]

theorem fetches_cycleEffects (p : Portion) : fetches (cycleEffects p) = [] := by
  rcases p with ⟨pending, data, marker⟩
  cases pending <;> cases data <;> rfl

/-- One cycle of the loop on a successful response: the fetch at the cursor, the
effects of the cycle, then the loop continues from the returned marker. -/
theorem followLoop_cons_reply (a : app) (logName sPos : String) (p : Portion)
    (replies : List PortionReply) :
    followLoop a logName sPos (p.reply :: replies) =
      ⟨Effect.fetch (getRecentEntriesParams a sPos logName) ::
          (cycleEffects p ++ (followLoop a logName p.marker replies).trace),
        (followLoop a logName p.marker replies).outcome⟩ := by
  rcases p with ⟨pending, data, marker⟩
  cases pending <;> cases data <;>
    simp [Portion.reply, followLoop, returnedError, cycleEffects]

/-- A failed fetch whose error implements `awserr.Error` ends the loop: the error
is returned right after the fetch. -/
theorem followLoop_typed_error_returned (a : app) (logName sPos : String)
    (resp : Option DownloadDBLogFilePortionOutput) (e : GoError) (replies : List PortionReply)
    (h : e.isAwsErr = true) :
    followLoop a logName sPos ((resp, some e) :: replies) =
      ⟨[Effect.fetch (getRecentEntriesParams a sPos logName)], .ret (some e)⟩ := by
  simp [followLoop, returnedError, h]

/-- The loop always starts with the fetch at its cursor. -/
theorem followLoop_trace_head (a : app) (logName sPos : String) (replies : List PortionReply) :
    ∃ t, (followLoop a logName sPos replies).trace =
      Effect.fetch (getRecentEntriesParams a sPos logName) :: t := by
  cases replies with
  | nil => exact ⟨[], rfl⟩
  | cons r replies =>
    rcases r with ⟨resp, err⟩
    simp only [followLoop]
    split
    · exact ⟨_, rfl⟩
    · split
      · exact ⟨_, rfl⟩
      · split
        · exact ⟨_, rfl⟩
        · split
          · exact ⟨_, rfl⟩
          · exact ⟨_, rfl⟩

/-- The fetches of the loop over successful responses: one at the cursor, then one
at each returned marker. -/
theorem fetches_followLoop_replies (a : app) (logName : String) (ps : List Portion) :
    ∀ sPos : String,
      fetches (followLoop a logName sPos (ps.map Portion.reply)).trace =
        (sPos :: ps.map Portion.marker).map (fun m => getRecentEntriesParams a m logName) := by
  induction ps with
  | nil => intro sPos; rfl
  | cons p ps ih =>
    intro sPos
    rw [List.map_cons, followLoop_cons_reply]
    simp only [fetches, fetches_append, fetches_cycleEffects, List.nil_append, ih]
    simp

/-- The loop never returns a nil error: it returns only from its error check. -/
theorem followLoop_outcome_ne_ret_none (a : app) (logName : String)
    (replies : List PortionReply) :
    ∀ sPos : String, (followLoop a logName sPos replies).outcome ≠ .ret none := by
  induction replies with
  | nil => intro sPos; simp [followLoop]
  | cons r replies ih =>
    intro sPos
    rcases r with ⟨resp, err⟩
    simp only [followLoop]
    split
    · simp
    · split
      · simp
      · split
        · simp
        · split
          · simp
          · exact ih _

/-- The fetches of the loop over any replies: one at the cursor, then one at the
marker of each reply the loop went on from. -/
theorem fetches_followLoop (a : app) (logName : String) (replies : List PortionReply) :
    ∀ sPos : String, ∃ ms : List String,
      fetches (followLoop a logName sPos replies).trace =
        (sPos :: ms).map (fun m => getRecentEntriesParams a m logName) ∧
      ∀ (i : Nat) (m : String), ms.get? i = some m →
        ∃ r err, replies.get? i = some (some r, err) ∧ r.Marker = some m := by
  induction replies with
  | nil => intro sPos; exact ⟨[], rfl, by simp⟩
  | cons r replies ih =>
    intro sPos
    rcases r with ⟨resp, err⟩
    simp only [followLoop]
    split
    · exact ⟨[], rfl, by simp⟩
    · split
      · exact ⟨[], rfl, by simp⟩
      · rename_i r
        split
        · refine ⟨[], ?_, by simp⟩
          cases r.LogFileData <;> rfl
        · rename_i m hm
          split
          · refine ⟨[], ?_, by simp⟩
            cases r.LogFileData <;> rfl
          · rename_i pending hp
            obtain ⟨ms, hms, hget⟩ := ih m
            refine ⟨m :: ms, ?_, ?_⟩
            · cases r.LogFileData <;> cases pending <;>
                simp [fetches, hms]
            · intro i x hx
              cases i with
              | zero =>
                simp at hx
                subst hx
                exact ⟨r, err, rfl, hm⟩
              | succ i => exact hget i x hx

/-! ## The follower: claims C3, C4, C6, C7 -/

/-- C3: in `followLog` the first fetch is sent with marker "0"; every later fetch is
sent with exactly the marker of the response to the fetch before it; every fetch
asks for 1 line of the same instance and log name; and over any sequence of
successful responses (with or without log data) every response is followed by a
fetch, so the markers sent are "0" and then the returned markers, in order. -/
theorem followLog_fetch_markers (a : app) (w : World) (logName : String) :
    (fetches (followLog a w logName).trace).head? =
        some { DBInstanceIdentifier := a.Options.DatabaseInstance
               LogFileName := logName
               Marker := "0"
               NumberOfLines := 1 } ∧
    (∀ (i : Nat) (p : DownloadDBLogFilePortionInput),
        (fetches (followLog a w logName).trace).get? (i + 1) = some p →
        ∃ r err, w.portions.get? i = some (some r, err) ∧ r.Marker = some p.Marker) ∧
    (∀ p ∈ fetches (followLog a w logName).trace,
        p.NumberOfLines = 1 ∧ p.DBInstanceIdentifier = a.Options.DatabaseInstance ∧
          p.LogFileName = logName) ∧
    (∀ ps : List Portion, w.portions = ps.map Portion.reply →
        fetches (followLog a w logName).trace =
          ("0" :: ps.map Portion.marker).map (fun m => getRecentEntriesParams a m logName)) := by
  obtain ⟨ms, hms, hget⟩ := fetches_followLoop a logName w.portions "0"
  unfold followLog
  refine ⟨?_, ?_, ?_, ?_⟩
  · rw [hms]; rfl
  · intro i p hp
    rw [hms] at hp
    simp only [List.map_cons, List.get?_cons_succ] at hp
    rw [List.get?_eq_getElem?, List.getElem?_map] at hp
    cases hm : ms[i]? with
    | none => simp [hm] at hp
    | some m =>
      simp [hm] at hp
      subst hp
      exact hget i m (by rw [List.get?_eq_getElem?]; exact hm)
  · intro p hp
    rw [hms] at hp
    obtain ⟨m, _, rfl⟩ := List.mem_map.mp hp
    exact ⟨rfl, rfl, rfl⟩
  · intro ps hps
    rw [hps]
    exact fetches_followLoop_replies a logName ps "0"

/-- Witness of C3: with responses returning markers "7" and "9", the fetches are
sent with markers "0", "7", "9". -/
theorem followLog_fetch_markers_witness :
    okWorld.portions = [(⟨true, some "line1\n", "7"⟩ : Portion), ⟨false, none, "9"⟩].map Portion.reply ∧
    fetches (followLog ⟨sampleOpts⟩ okWorld "error/log1").trace =
      ["0", "7", "9"].map (fun m => getRecentEntriesParams ⟨sampleOpts⟩ m "error/log1") :=
  ⟨rfl, (followLog_fetch_markers ⟨sampleOpts⟩ okWorld "error/log1").2.2.2
    [⟨true, some "line1\n", "7"⟩, ⟨false, none, "9"⟩] rfl⟩

/-- C4 (evaluation at the failing input): when the fetch fails with an error whose
type does not implement `awserr.Error`, `followLog` does not return it: with a
filled response it prints, moves the cursor, sleeps and fetches again; with an
empty response it panics on a nil pointer. -/
theorem followLog_untyped_error_not_returned :
    followLog ⟨sampleOpts⟩
        { okWorld with portions :=
            [(some ⟨some false, some "line\n", some "5"⟩, some ⟨"connection reset", false⟩)] }
        "error/log1" =
      ⟨[.fetch ⟨"mydb", "error/log1", "0", 1⟩, .stdout "line\n",
        .stdout "No data pending. Sleeping 10 sec \n", .sleep 15000000000,
        .fetch ⟨"mydb", "error/log1", "5", 1⟩], .blocked⟩ ∧
    followLog ⟨sampleOpts⟩
        { okWorld with portions := [(some ⟨none, none, none⟩, some ⟨"connection reset", false⟩)] }
        "error/log1" =
      ⟨[.fetch ⟨"mydb", "error/log1", "0", 1⟩], .panicked .nilDereference⟩ := by
  decide

/-- C6 (counterexample): in a cycle whose response reports no additional data
pending and carries no log data, `followLog` prints the status line. -/
theorem followLog_prints_status_line :
    stdoutOf (followLog ⟨sampleOpts⟩ { okWorld with portions := [Portion.reply ⟨false, none, "5"⟩] }
        "error/log1").trace = ["No data pending. Sleeping 10 sec \n"] := by
  decide

/-- C6 (amended): in a cycle of `followLog` whose response reports no additional
data pending, what is printed to standard output between the fetch and the next
fetch is the log data of the response, if it carries any, followed by the status
line "No data pending. Sleeping 10 sec \n", and nothing else. -/
theorem followLog_idle_cycle_stdout (a : app) (logName sPos : String) (data : Option String)
    (marker : String) (replies : List PortionReply) :
    ∃ cycle next,
      (followLoop a logName sPos (Portion.reply ⟨false, data, marker⟩ :: replies)).trace =
        Effect.fetch (getRecentEntriesParams a sPos logName) ::
          (cycle ++ Effect.fetch (getRecentEntriesParams a marker logName) :: next) ∧
      fetches cycle = [] ∧
      stdoutOf cycle = data.toList ++ ["No data pending. Sleeping 10 sec \n"] := by
  obtain ⟨next, hnext⟩ := followLoop_trace_head a logName marker replies
  refine ⟨cycleEffects ⟨false, data, marker⟩, next, ?_, fetches_cycleEffects _, ?_⟩
  · rw [followLoop_cons_reply, hnext]
  · cases data <;> rfl

/-- C7: in a cycle of `followLog` with a successful response, between that response
and the next fetch the loop sleeps exactly once, for 15 seconds, when the response
reports no additional data pending, and does not sleep when it reports additional
data pending. -/
theorem followLog_cycle_sleep (a : app) (logName sPos : String) (p : Portion)
    (replies : List PortionReply) :
    ∃ cycle next,
      (followLoop a logName sPos (p.reply :: replies)).trace =
        Effect.fetch (getRecentEntriesParams a sPos logName) ::
          (cycle ++ Effect.fetch (getRecentEntriesParams a p.marker logName) :: next) ∧
      fetches cycle = [] ∧
      sleepsOf cycle = if p.pending then [] else [15 * time.Second] := by
  obtain ⟨next, hnext⟩ := followLoop_trace_head a logName p.marker replies
  refine ⟨cycleEffects p, next, ?_, fetches_cycleEffects _, ?_⟩
  · rw [followLoop_cons_reply, hnext]
  · rcases p with ⟨pending, data, marker⟩
    cases pending <;> cases data <;> rfl

/-! ## The downloader: claims C1, C2, C5, C8, C10 -/

theorem downloadHost_eq (a : app) :
    downloadHost a = "https://" ++ ("rds." ++ a.Options.Region ++ ".amazonaws.com") := by
  unfold downloadHost
  rw [← String.append_assoc, ← String.append_assoc]
  rfl

/-! ### The URL of the request: lemmas on `url.Parse` -/

theorem isUnreserved_bounds (c : Char) (h : url.isUnreserved c = true) :
    0x2D ≤ c.toNat ∧ c.toNat ≤ 0x7E := by
  simp only [url.isUnreserved, url.isAlnum, Bool.or_eq_true, Bool.and_eq_true, decide_eq_true_eq,
    List.mem_cons, List.mem_singleton, List.not_mem_nil, or_false] at h
  rcases h with ((⟨h1, h2⟩ | ⟨h1, h2⟩) | ⟨h1, h2⟩) | h
  · have a1 : ('a' : Char).toNat ≤ c.toNat := h1
    have a2 : c.toNat ≤ ('z' : Char).toNat := h2
    simp at a1 a2
    omega
  · have a1 : ('A' : Char).toNat ≤ c.toNat := h1
    have a2 : c.toNat ≤ ('Z' : Char).toNat := h2
    simp at a1 a2
    omega
  · have a1 : ('0' : Char).toNat ≤ c.toNat := h1
    have a2 : c.toNat ≤ ('9' : Char).toNat := h2
    simp at a1 a2
    omega
  · rcases h with h | h | h | h <;> subst h <;> decide


theorem not_mem_of_not_unreserved (x : Char) (s : List Char)
    (hs : ∀ c ∈ s, url.isUnreserved c = true) (hx : url.isUnreserved x = false) : x ∉ s := by
  intro h
  rw [hs x h] at hx
  cases hx

theorem splitLastChars_of_not_mem (x : Char) (s : List Char) (h : x ∉ s) :
    strings.splitLastChars x s = none := by
  induction s with
  | nil => rfl
  | cons c cs ih =>
    have h1 : ¬ c = x := fun e => h (by simp [e])
    have h2 : x ∉ cs := fun e => h (by simp [e])
    simp [strings.splitLastChars, ih h2, h1]

theorem cutChars_of_not_mem (x : Char) (s : List Char) (h : x ∉ s) :
    strings.cutChars x s = (s, []) := by
  simp [strings.cutChars, h]

theorem takeWhile_of_not_mem (x : Char) (s : List Char) (h : x ∉ s) :
    s.takeWhile (fun c => c != x) = s := by
  apply List.takeWhile_eq_self_iff.mpr
  intro c hc
  have : c ≠ x := fun e => h (e ▸ hc)
  simpa using this

theorem dropWhile_of_not_mem (x : Char) (s : List Char) (h : x ∉ s) :
    s.dropWhile (fun c => c != x) = [] := by
  apply List.dropWhile_eq_nil_iff.mpr
  intro c hc
  have : c ≠ x := fun e => h (e ▸ hc)
  simpa using this

theorem shouldEscapeHost_of_unreserved (c : Char) (h : url.isUnreserved c = true) :
    url.shouldEscapeHost c = false := by
  simp only [url.isUnreserved, Bool.or_eq_true] at h
  rcases h with h | h
  · simp [url.shouldEscapeHost, h]
  · simp only [url.shouldEscapeHost]
    have h3 : (decide (c ∈ ['-', '_', '.', '~'])) = true := by
      simp only [List.mem_cons, List.mem_singleton, List.not_mem_nil, or_false,
        decide_eq_true_eq] at h ⊢
      tauto
    rw [h3, Bool.or_true]
    rfl

theorem unescapeValid_of_unreserved (mode : url.Encoding) (s : List Char)
    (hs : ∀ c ∈ s, url.isUnreserved c = true) : url.unescapeValid mode s = true := by
  induction s with
  | nil => rfl
  | cons c cs ih =>
    have hc : url.isUnreserved c = true := hs c (by simp)
    have h1 : ¬ c = '%' := by
      intro e
      subst e
      revert hc
      decide
    have h2 := shouldEscapeHost_of_unreserved c hc
    have ih2 := ih (fun d hd => hs d (by simp [hd]))
    unfold url.unescapeValid
    simp [h1, h2, ih2]

theorem unescape_of_unreserved (mode : url.Encoding) (s : List Char)
    (hs : ∀ c ∈ s, url.isUnreserved c = true) : url.unescape s mode = some s := by
  have h := not_mem_of_not_unreserved '%' s hs (by decide)
  simp [url.unescape, unescapeValid_of_unreserved mode s hs, h]

theorem parseHost_of_unreserved (s : List Char)
    (hs : ∀ c ∈ s, url.isUnreserved c = true) : url.parseHost s = some s := by
  have h1 : s.head? ≠ some '[' := by
    intro e
    exact not_mem_of_not_unreserved '[' s hs (by decide) (List.mem_of_mem_head? e)
  have h2 := splitLastChars_of_not_mem ':' s (not_mem_of_not_unreserved ':' s hs (by decide))
  simp [url.parseHost, h1, h2, unescape_of_unreserved]
  exact unescape_of_unreserved _ s hs

theorem parseAuthority_of_unreserved (s : List Char)
    (hs : ∀ c ∈ s, url.isUnreserved c = true) : url.parseAuthority s = some (none, s) := by
  have h2 := splitLastChars_of_not_mem '@' s (not_mem_of_not_unreserved '@' s hs (by decide))
  simp [url.parseAuthority, h2, parseHost_of_unreserved s hs]

theorem stringContainsCTLByte_of_unreserved (s : List Char)
    (hs : ∀ c ∈ s, url.isUnreserved c = true) : url.stringContainsCTLByte s = false := by
  simp only [url.stringContainsCTLByte, List.any_eq_false]
  intro c hc
  have hb := isUnreserved_bounds c (hs c hc)
  simp
  omega


theorem getScheme_https (s : List Char) :
    url.getScheme ('h' :: 't' :: 't' :: 'p' :: 's' :: ':' :: s) =
      some (['h', 't', 't', 'p', 's'], s) := by
  simp [url.getScheme, url.getSchemeFrom]

theorem parse_https_of_unreserved (s : List Char)
    (hs : ∀ c ∈ s, url.isUnreserved c = true) :
    url.parse ('h' :: 't' :: 't' :: 'p' :: 's' :: ':' :: '/' :: '/' :: s) =
      some ⟨"https", "", none, String.mk s, "", false, "", "", false⟩ := by
  have hq : '?' ∉ s := not_mem_of_not_unreserved '?' s hs (by decide)
  have hsl : '/' ∉ s := not_mem_of_not_unreserved '/' s hs (by decide)
  have hq2 : '?' ∉ '/' :: '/' :: s := by simp [hq]
  have hctl : url.stringContainsCTLByte ('h' :: 't' :: 't' :: 'p' :: 's' :: ':' :: '/' :: '/' :: s)
      = false := by
    have := stringContainsCTLByte_of_unreserved s hs
    simp only [url.stringContainsCTLByte, List.any_cons] at this ⊢
    rw [this]
    decide
  have hcount : ('/' :: '/' :: s).count '?' = 0 := List.count_eq_zero.mpr hq2
  unfold url.parse
  rw [getScheme_https]
  simp only [hctl, Bool.false_eq_true, if_false, hcount, cutChars_of_not_mem '?' _ hq2]
  simp [takeWhile_of_not_mem '/' s hsl, dropWhile_of_not_mem '/' s hsl,
    parseAuthority_of_unreserved s hs, url.unescape, url.unescapeValid]

theorem Parse_https_of_unreserved (host : String)
    (hs : ∀ c ∈ host.data, url.isUnreserved c = true) :
    url.Parse ("https://" ++ host) =
      some ⟨"https", "", none, host, "", false, "", "", false⟩ := by
  have hd : ("https://" ++ host).data =
      'h' :: 't' :: 't' :: 'p' :: 's' :: ':' :: '/' :: '/' :: host.data := by
    rw [String.data_append]
    rfl
  have hh : '#' ∉ ("https://" ++ host).data := by
    rw [hd]
    have := not_mem_of_not_unreserved '#' host.data hs (by decide)
    simp [this]
  unfold url.Parse
  simp only [cutChars_of_not_mem '#' _ hh]
  rw [hd, parse_https_of_unreserved host.data hs]
  rfl

theorem removeEmptyPort_of_unreserved (s : List Char)
    (hs : ∀ c ∈ s, url.isUnreserved c = true) : http.removeEmptyPort s = s := by
  have h1 := splitLastChars_of_not_mem ':' s (not_mem_of_not_unreserved ':' s hs (by decide))
  have h2 := splitLastChars_of_not_mem ']' s (not_mem_of_not_unreserved ']' s hs (by decide))
  simp [http.removeEmptyPort, http.hasPort, strings.LastIndex, h1, h2]

theorem requestURL_https_of_unreserved (host : String)
    (hs : ∀ c ∈ host.data, url.isUnreserved c = true) :
    http.requestURL ("https://" ++ host) =
      some ⟨"https", "", none, host, "", false, "", "", false⟩ := by
  simp [http.requestURL, Parse_https_of_unreserved host hs,
    removeEmptyPort_of_unreserved host.data hs]

theorem isUnreserved_rds_host (region : String)
    (hr : ∀ c ∈ region.data, url.isUnreserved c = true) :
    ∀ c ∈ ("rds." ++ region ++ ".amazonaws.com").data, url.isUnreserved c = true := by
  intro c hc
  rw [String.data_append, String.data_append, List.mem_append, List.mem_append] at hc
  rcases hc with (hc | hc) | hc
  · revert c
    decide
  · exact hr c hc
  · revert c
    decide

/-! ### Claim C2 -/

/-- Every request `downloadLogFile` sends is the one built at lines 155-161 with the
headers of the signature, and it is sent whenever its construction and its signing
succeed. -/
theorem downloadLogFile_sent_request (a : app) (w : World) (logName : String) :
    (∀ req, Effect.httpDo req ∈ (downloadLogFile a w logName).trace →
      req.Method = "GET" ∧
      req.URL = "https://" ++ ("rds." ++ a.Options.Region ++ ".amazonaws.com") ∧
      req.Path = some ("/v13/downloadCompleteLogFile/" ++ a.Options.DatabaseInstance ++ "/" ++
        logName) ∧
      req.Body = none ∧
      Effect.sign { req with Header := [] } none "rds" a.Options.Region w.now ∈
        (downloadLogFile a w logName).trace ∧
      w.Sign { req with Header := [] } none "rds" a.Options.Region w.now = .ok req.Header) ∧
    (∀ header, w.NewRequest "GET" (downloadHost a) = none →
      w.Sign (downloadRequest a logName) none "rds" a.Options.Region w.now = .ok header →
      Effect.httpDo { downloadRequest a logName with Header := header } ∈
        (downloadLogFile a w logName).trace) := by
  constructor
  · intro req
    unfold downloadLogFile
    simp only []
    split
    · simp
    · split
      · simp
      · rename_i header hS
        repeat' split
        all_goals
          intro h
          have hr : req = { downloadRequest a logName with Header := header } := by
            simpa using h
          subst hr
          exact ⟨rfl, downloadHost_eq a, rfl, rfl, by simp [downloadRequest], hS⟩
  · intro header hN hS
    unfold downloadLogFile
    simp only [hN, hS]
    split
    · simp
    · split
      · simp
      · split
        · simp
        · split <;> simp

/-- C2 (counterexample): with region "a/b" the request that is sent was built
from the URL `https://rds.a/b.amazonaws.com`, whose host is "rds.a" and not
"rds.a/b.amazonaws.com". -/
theorem downloadLogFile_request_host_of_slash_region :
    Effect.httpDo
        { Method := "GET"
          URL := "https://rds.a/b.amazonaws.com"
          Path := some "/v13/downloadCompleteLogFile/mydb/error/log1"
          Body := none
          Header := [("Authorization", "AWS4-HMAC-SHA256")] } ∈
      (downloadLogFile ⟨{ sampleOpts with Region := "a/b" }⟩ okWorld "error/log1").trace ∧
    http.requestURL "https://rds.a/b.amazonaws.com" =
      some { Scheme := "https", Opaque := "", User := none, Host := "rds.a",
             Path := "/b.amazonaws.com", ForceQuery := false, RawQuery := "", Fragment := "",
             OmitHost := false } ∧
    "rds.a" ≠ "rds." ++ "a/b" ++ ".amazonaws.com" := by
  decide

/-- C2 (amended): for every region made of unreserved characters (ASCII letters,
digits, `-`, `.`, `_`, `~`), every request `downloadLogFile` sends is a GET whose
URL is parsed by `http.NewRequest` to scheme "https" and host
`rds.<region>.amazonaws.com` (with no user, query or fragment, and an empty path
that line 161 replaces), whose path is set to
`/v13/downloadCompleteLogFile/<instance>/<logName>`, which has no body, and which
was signed before with no body, service name "rds" and that region, carrying the
headers of that signature; and the request is sent whenever its construction and
its signing succeed. -/
theorem downloadLogFile_request (a : app) (w : World) (logName : String)
    (hr : ∀ c ∈ a.Options.Region.data, url.isUnreserved c = true) :
    (∀ req, Effect.httpDo req ∈ (downloadLogFile a w logName).trace →
      req.Method = "GET" ∧
      http.requestURL req.URL =
        some { Scheme := "https", Opaque := "", User := none,
               Host := "rds." ++ a.Options.Region ++ ".amazonaws.com",
               Path := "", ForceQuery := false, RawQuery := "", Fragment := "",
               OmitHost := false } ∧
      req.Path = some ("/v13/downloadCompleteLogFile/" ++ a.Options.DatabaseInstance ++ "/" ++
        logName) ∧
      req.Body = none ∧
      Effect.sign { req with Header := [] } none "rds" a.Options.Region w.now ∈
        (downloadLogFile a w logName).trace ∧
      w.Sign { req with Header := [] } none "rds" a.Options.Region w.now = .ok req.Header) ∧
    (∀ header, w.NewRequest "GET" (downloadHost a) = none →
      w.Sign (downloadRequest a logName) none "rds" a.Options.Region w.now = .ok header →
      Effect.httpDo { downloadRequest a logName with Header := header } ∈
        (downloadLogFile a w logName).trace) := by
  have hsent := downloadLogFile_sent_request a w logName
  refine ⟨?_, hsent.2⟩
  intro req hreq
  obtain ⟨h1, h2, h3, h4, h5, h6⟩ := hsent.1 req hreq
  refine ⟨h1, ?_, h3, h4, h5, h6⟩
  rw [h2]
  exact requestURL_https_of_unreserved _ (isUnreserved_rds_host a.Options.Region hr)

/-- Witness of C2 (amended): region "eu-west-1", instance "mydb" and log
"error/log1" give a GET of host `rds.eu-west-1.amazonaws.com` with path
`/v13/downloadCompleteLogFile/mydb/error/log1`. -/
theorem downloadLogFile_request_witness :
    (∀ c ∈ "eu-west-1".data, url.isUnreserved c = true) ∧
    Effect.httpDo
        { Method := "GET"
          URL := "https://rds.eu-west-1.amazonaws.com"
          Path := some "/v13/downloadCompleteLogFile/mydb/error/log1"
          Body := none
          Header := [("Authorization", "AWS4-HMAC-SHA256")] } ∈
      (downloadLogFile ⟨sampleOpts⟩ okWorld "error/log1").trace ∧
    http.requestURL "https://rds.eu-west-1.amazonaws.com" =
      some { Scheme := "https", Opaque := "", User := none,
             Host := "rds.eu-west-1.amazonaws.com",
             Path := "", ForceQuery := false, RawQuery := "", Fragment := "",
             OmitHost := false } :=
  ⟨by decide,
    (downloadLogFile_request ⟨sampleOpts⟩ okWorld "error/log1" (by decide)).2
      [("Authorization", "AWS4-HMAC-SHA256")] rfl rfl,
    ((downloadLogFile_request ⟨sampleOpts⟩ okWorld "error/log1" (by decide)).1 _
      ((downloadLogFile_request ⟨sampleOpts⟩ okWorld "error/log1" (by decide)).2
        [("Authorization", "AWS4-HMAC-SHA256")] rfl rfl)).2.1⟩

/-- C8: in `downloadLogFile` a failure of the request construction, of the
signing, of the HTTP round trip or of the creation of the output file ends the
call: it returns the empty path with that very error, and the trace shows that
none of the later steps took place (no signing after a failed construction, no
request sent after a failed signing, no file created after a failed round trip, no
copy after a failed creation). -/
theorem downloadLogFile_short_circuits (a : app) (w : World) (logName : String) :
    (∀ e, w.NewRequest "GET" (downloadHost a) = some e →
      downloadLogFile a w logName =
        ⟨[.newRequest "GET" (downloadHost a) none, .stdout (e.Error ++ "\n")],
          .ret ("", some e)⟩) ∧
    (∀ e, w.NewRequest "GET" (downloadHost a) = none →
      w.Sign (downloadRequest a logName) none "rds" a.Options.Region w.now = .error e →
      downloadLogFile a w logName =
        ⟨[.newRequest "GET" (downloadHost a) none,
          .sign (downloadRequest a logName) none "rds" a.Options.Region w.now,
          .stdout (e.Error ++ "\n")],
          .ret ("", some e)⟩) ∧
    (∀ header e, w.NewRequest "GET" (downloadHost a) = none →
      w.Sign (downloadRequest a logName) none "rds" a.Options.Region w.now = .ok header →
      w.Do { downloadRequest a logName with Header := header } = .error e →
      downloadLogFile a w logName =
        ⟨[.newRequest "GET" (downloadHost a) none,
          .sign (downloadRequest a logName) none "rds" a.Options.Region w.now,
          .httpDo { downloadRequest a logName with Header := header },
          .log e.Error],
          .ret ("", some e)⟩) ∧
    (∀ header resp name e, w.NewRequest "GET" (downloadHost a) = none →
      w.Sign (downloadRequest a logName) none "rds" a.Options.Region w.now = .ok header →
      w.Do { downloadRequest a logName with Header := header } = .ok resp →
      (strings.Split logName '/')[1]? = some name →
      w.Create (filepath.Join [a.Options.LogOutput, name]) = some e →
      downloadLogFile a w logName =
        ⟨[.newRequest "GET" (downloadHost a) none,
          .sign (downloadRequest a logName) none "rds" a.Options.Region w.now,
          .httpDo { downloadRequest a logName with Header := header },
          .stdout ("Download request completed with status: " ++ toString resp.StatusCode ++
            " > " ++ downloadPath a logName ++ " \n"),
          .create (filepath.Join [a.Options.LogOutput, name]),
          .log e.Error,
          .closeBody],
          .ret ("", some e)⟩) := by
  refine ⟨?_, ?_, ?_, ?_⟩
  · intro e hN
    simp [downloadLogFile, hN]
  · intro e hN hS
    simp [downloadLogFile, hN, hS]
  · intro header e hN hS hD
    simp [downloadLogFile, hN, hS, hD]
  · intro header resp name e hN hS hD hName hC
    simp [downloadLogFile, hN, hS, hD, hName, hC]

/-- Witness of C8: the four failures, each in a world where the steps before it
succeed. -/
theorem downloadLogFile_short_circuits_witness :
    (downloadLogFile ⟨sampleOpts⟩
        { okWorld with NewRequest := fun _ _ => some ⟨"invalid URL", false⟩ } "error/log1").outcome =
      .ret ("", some ⟨"invalid URL", false⟩) ∧
    (downloadLogFile ⟨sampleOpts⟩
        { okWorld with Sign := fun _ _ _ _ _ => .error ⟨"no credentials", true⟩ }
        "error/log1").outcome =
      .ret ("", some ⟨"no credentials", true⟩) ∧
    (downloadLogFile ⟨sampleOpts⟩
        { okWorld with Do := fun _ => .error ⟨"connection refused", false⟩ } "error/log1").outcome =
      .ret ("", some ⟨"connection refused", false⟩) ∧
    (downloadLogFile ⟨sampleOpts⟩
        { okWorld with Create := fun _ => some ⟨"permission denied", false⟩ } "error/log1").outcome =
      .ret ("", some ⟨"permission denied", false⟩) :=
  ⟨congrArg Run.outcome
      ((downloadLogFile_short_circuits ⟨sampleOpts⟩
        { okWorld with NewRequest := fun _ _ => some ⟨"invalid URL", false⟩ } "error/log1").1
        ⟨"invalid URL", false⟩ rfl),
    congrArg Run.outcome
      ((downloadLogFile_short_circuits ⟨sampleOpts⟩
        { okWorld with Sign := fun _ _ _ _ _ => .error ⟨"no credentials", true⟩ }
        "error/log1").2.1 ⟨"no credentials", true⟩ rfl rfl),
    congrArg Run.outcome
      ((downloadLogFile_short_circuits ⟨sampleOpts⟩
        { okWorld with Do := fun _ => .error ⟨"connection refused", false⟩ } "error/log1").2.2.1
        [("Authorization", "AWS4-HMAC-SHA256")] ⟨"connection refused", false⟩ rfl rfl rfl),
    congrArg Run.outcome
      ((downloadLogFile_short_circuits ⟨sampleOpts⟩
        { okWorld with Create := fun _ => some ⟨"permission denied", false⟩ } "error/log1").2.2.2
        [("Authorization", "AWS4-HMAC-SHA256")] ⟨200, "log body"⟩ "log1"
        ⟨"permission denied", false⟩ rfl rfl rfl (by decide) rfl)⟩

/-- When the copy of the body fails, `downloadLogFile` logs the error and the
process is terminated with exit status 1 (`log.Fatalln`): nothing is returned and
the deferred closes do not run. -/
theorem downloadLogFile_copy_failure_run (a : app) (w : World) (logName : String)
    (header : List (String × String)) (resp : Response) (name : String) (e : GoError)
    (hN : w.NewRequest "GET" (downloadHost a) = none)
    (hS : w.Sign (downloadRequest a logName) none "rds" a.Options.Region w.now = .ok header)
    (hD : w.Do { downloadRequest a logName with Header := header } = .ok resp)
    (hName : (strings.Split logName '/')[1]? = some name)
    (hC : w.Create (filepath.Join [a.Options.LogOutput, name]) = none)
    (hK : w.Copy (filepath.Join [a.Options.LogOutput, name]) resp.Body = some e) :
    downloadLogFile a w logName =
      ⟨[.newRequest "GET" (downloadHost a) none,
        .sign (downloadRequest a logName) none "rds" a.Options.Region w.now,
        .httpDo { downloadRequest a logName with Header := header },
        .stdout ("Download request completed with status: " ++ toString resp.StatusCode ++
          " > " ++ downloadPath a logName ++ " \n"),
        .create (filepath.Join [a.Options.LogOutput, name]),
        .copy (filepath.Join [a.Options.LogOutput, name]) resp.Body,
        .log e.Error],
        .exited 1⟩ := by
  simp [downloadLogFile, hN, hS, hD, hName, hC, hK]

/-- C5 (evaluation at the failing input): when the copy of the response body into
`/tmp/log1` fails with "unexpected EOF", `downloadLogFile` does not return the
error: after the copy it logs the error and the process is terminated with exit
status 1, the deferred closes not being run. -/
theorem downloadLogFile_copy_failure_exits :
    downloadLogFile ⟨sampleOpts⟩
        { okWorld with Copy := fun _ _ => some ⟨"unexpected EOF", false⟩ } "error/log1" =
      ⟨[.newRequest "GET" "https://rds.eu-west-1.amazonaws.com" none,
        .sign ⟨"GET", "https://rds.eu-west-1.amazonaws.com",
          some "/v13/downloadCompleteLogFile/mydb/error/log1", none, []⟩ none "rds" "eu-west-1"
          1700000000,
        .httpDo ⟨"GET", "https://rds.eu-west-1.amazonaws.com",
          some "/v13/downloadCompleteLogFile/mydb/error/log1", none,
          [("Authorization", "AWS4-HMAC-SHA256")]⟩,
        .stdout ("Download request completed with status: 200 > " ++
          "/v13/downloadCompleteLogFile/mydb/error/log1 \n"),
        .create "/tmp/log1",
        .copy "/tmp/log1" "log body",
        .log "unexpected EOF"],
        .exited 1⟩ := by
  decide

/-- C10: element 1 of the log name split on '/' is in bounds exactly when the log
name contains a '/'; for a log name with no '/', once the request has been sent
and answered, `downloadLogFile` panics with index 1 out of range (length 1) and
returns nothing. -/
theorem downloadLogFile_index_out_of_range (a : app) (w : World) (logName : String) :
    (1 < (strings.Split logName '/').length ↔ '/' ∈ logName.data) ∧
    (∀ header resp, '/' ∉ logName.data →
      w.NewRequest "GET" (downloadHost a) = none →
      w.Sign (downloadRequest a logName) none "rds" a.Options.Region w.now = .ok header →
      w.Do { downloadRequest a logName with Header := header } = .ok resp →
      downloadLogFile a w logName =
        ⟨[.newRequest "GET" (downloadHost a) none,
          .sign (downloadRequest a logName) none "rds" a.Options.Region w.now,
          .httpDo { downloadRequest a logName with Header := header },
          .stdout ("Download request completed with status: " ++ toString resp.StatusCode ++
            " > " ++ downloadPath a logName ++ " \n"),
          .closeBody],
          .panicked (.indexOutOfRange 1 1)⟩) := by
  constructor
  · by_cases h : '/' ∈ logName.data
    · have h1 := Split_one logName
      rw [if_pos h] at h1
      have hlt : 1 < (strings.Split logName '/').length := by
        by_contra hn
        rw [List.getElem?_eq_none (Nat.le_of_not_lt hn)] at h1
        cases h1
      simp [h, hlt]
    · simp [h, Split_length_of_not_mem logName h]
  · intro header resp h hN hS hD
    have h1 := Split_one logName
    rw [if_neg h] at h1
    simp [downloadLogFile, hN, hS, hD, h1, Split_length_of_not_mem logName h]

/-- Witness of C10: the log name "mysql-error.log" has no '/'. -/
theorem downloadLogFile_index_out_of_range_witness :
    (downloadLogFile ⟨sampleOpts⟩ okWorld "mysql-error.log").outcome =
      .panicked (.indexOutOfRange 1 1) :=
  congrArg Run.outcome
    ((downloadLogFile_index_out_of_range ⟨sampleOpts⟩ okWorld "mysql-error.log").2
      [("Authorization", "AWS4-HMAC-SHA256")] ⟨200, "log body"⟩ (by decide) rfl rfl rfl)

/-- C1 (counterexample): for the log name "a/b/c" and the output directory "/tmp"
the file is created at and returned as "/tmp/b", while the join of "/tmp" with the
substring after the first '/' is "/tmp/b/c". -/
theorem downloadLogFile_output_path_second_slash :
    (downloadLogFile ⟨sampleOpts⟩ okWorld "a/b/c").outcome = .ret ("/tmp/b", none) ∧
    Effect.create "/tmp/b" ∈ (downloadLogFile ⟨sampleOpts⟩ okWorld "a/b/c").trace ∧
    filepath.Join ["/tmp", substringAfterFirstSlash "a/b/c"] = "/tmp/b/c" := by
  decide

/-- C1 (amended): every path `downloadLogFile` creates or returns is the join of
the output directory with the segment of the log name between its first '/' and
its second '/' (or its end), and the log name then contains a '/'; with such a log
name and every step succeeding that path is created and returned; and for a log
name with exactly one '/' the segment is the whole substring after the first
'/'. -/
theorem downloadLogFile_output_path (a : app) (w : World) (logName : String) :
    (∀ path, (Effect.create path ∈ (downloadLogFile a w logName).trace ∨
        (downloadLogFile a w logName).outcome = .ret (path, none)) →
      '/' ∈ logName.data ∧
        path = filepath.Join [a.Options.LogOutput, segmentAfterFirstSlash logName]) ∧
    (∀ header resp, '/' ∈ logName.data →
      w.NewRequest "GET" (downloadHost a) = none →
      w.Sign (downloadRequest a logName) none "rds" a.Options.Region w.now = .ok header →
      w.Do { downloadRequest a logName with Header := header } = .ok resp →
      w.Create (filepath.Join [a.Options.LogOutput, segmentAfterFirstSlash logName]) = none →
      w.Copy (filepath.Join [a.Options.LogOutput, segmentAfterFirstSlash logName]) resp.Body =
        none →
      Effect.create (filepath.Join [a.Options.LogOutput, segmentAfterFirstSlash logName]) ∈
          (downloadLogFile a w logName).trace ∧
        (downloadLogFile a w logName).outcome =
          .ret (filepath.Join [a.Options.LogOutput, segmentAfterFirstSlash logName], none)) ∧
    (logName.data.count '/' = 1 →
      segmentAfterFirstSlash logName = substringAfterFirstSlash logName) := by
  refine ⟨?_, ?_, ?_⟩
  · intro path
    have h1 := Split_one logName
    by_cases h : '/' ∈ logName.data
    · rw [if_pos h] at h1
      unfold downloadLogFile
      simp only [h1]
      intro hp
      refine ⟨h, ?_⟩
      repeat' split at hp
      all_goals simp at hp
      all_goals first
        | exact hp
        | exact hp.symm
        | (rcases hp with hp | hp
           · exact hp
           · exact hp.symm)
    · rw [if_neg h] at h1
      unfold downloadLogFile
      simp only [h1]
      intro hp
      exfalso
      repeat' split at hp
      all_goals simp at hp
  · intro header resp h hN hS hD hC hK
    have h1 := Split_one logName
    rw [if_pos h] at h1
    simp [downloadLogFile, hN, hS, hD, h1, hC, hK]
  · intro h
    have hno := not_mem_tail_dropWhile_of_count logName.data h
    unfold segmentAfterFirstSlash substringAfterFirstSlash
    congr 1
    apply List.takeWhile_eq_self_iff.mpr
    intro c hc
    have : c ≠ '/' := fun e => hno (e ▸ hc)
    simpa using this

/-- Witness of C1 (amended): output directory "/tmp" and log name
"error/mysql-error.log" give "/tmp/mysql-error.log". -/
theorem downloadLogFile_output_path_witness :
    "error/mysql-error.log".data.count '/' = 1 ∧
    segmentAfterFirstSlash "error/mysql-error.log" = "mysql-error.log" ∧
    (downloadLogFile ⟨sampleOpts⟩ okWorld "error/mysql-error.log").outcome =
      .ret ("/tmp/mysql-error.log", none) :=
  ⟨by decide, by decide,
    ((downloadLogFile_output_path ⟨sampleOpts⟩ okWorld "error/mysql-error.log").2.1
      [("Authorization", "AWS4-HMAC-SHA256")] ⟨200, "log body"⟩ (by decide) rfl rfl rfl rfl rfl).2.trans
      (by decide)⟩

/-! ## The dispatch of `main`: claim C9 -/

theorem dispatched_followLoop (a : app) (logName : String) (replies : List PortionReply) :
    ∀ sPos : String, dispatched (followLoop a logName sPos replies).trace = [] := by
  induction replies with
  | nil => intro sPos; rfl
  | cons r replies ih =>
    intro sPos
    rcases r with ⟨resp, err⟩
    simp only [followLoop]
    split
    · rfl
    · split
      · rfl
      · rename_i r
        split
        · cases r.LogFileData <;> rfl
        · split
          · cases r.LogFileData <;> rfl
          · rename_i pending _
            cases r.LogFileData <;> cases pending <;>
              simp [dispatched, dispatched_append, ih]

theorem dispatched_downloadLogFile (a : app) (w : World) (logName : String) :
    dispatched (downloadLogFile a w logName).trace = [] := by
  unfold downloadLogFile
  simp only []
  repeat' split
  all_goals rfl

theorem dispatched_printNames (ks : List (Option DescribeDBLogFilesDetails)) :
    dispatched (printNames ks).1 = [] := by
  induction ks with
  | nil => rfl
  | cons k ks ih =>
    cases k with
    | none => rfl
    | some k =>
      simp only [printNames]
      split
      · rfl
      · simpa [dispatched] using ih

theorem printNames_names (names : List String) :
    printNames (names.map (fun n => some ⟨some n⟩)) =
      (names.map (fun n => Effect.stdout (n ++ "\n")), false) := by
  induction names with
  | nil => rfl
  | cons n names ih => simp [printNames, ih]

theorem dispatched_mainSaveOrPrint (opts : Opts) (w : World)
    (l : Option DescribeDBLogFilesOutput) (t : List Effect) :
    dispatched (mainSaveOrPrint opts ⟨opts⟩ w l t).trace =
      dispatched t ++
        (if opts.Download = true ∧ opts.DatabaseInstance ≠ "" then [Capability.download]
         else if opts.PrintLogs = true then [Capability.enumeratePrint]
         else []) := by
  unfold mainSaveOrPrint
  by_cases hd : opts.Download = true ∧ opts.DatabaseInstance ≠ ""
  · have hc : (opts.Download && opts.DatabaseInstance != "") = true := by
      simpa using hd
    simp only [hc, if_true, if_pos hd]
    split <;>
      simp [dispatched_append, dispatched, dispatched_downloadLogFile]
  · have hc : (opts.Download && opts.DatabaseInstance != "") = false := by
      cases h : (opts.Download && opts.DatabaseInstance != "")
      · rfl
      · exact absurd (by simpa using h) hd
    simp only [hc, if_neg hd, Bool.false_eq_true, if_false]
    by_cases hp : opts.PrintLogs = true
    · simp only [hp, if_true]
      split
      · simp [dispatched_append, dispatched]
      · split <;> simp [dispatched_append, dispatched, dispatched_printNames]
    · simp [hp]

/-- What `main` dispatches to, for parsed options. -/
theorem dispatched_main (opts : Opts) (w : World) :
    dispatched (main (.ok opts) w).trace =
      match (w.DescribeDBLogFiles (getLogNamesInput ⟨opts⟩)).2 with
      | some _ => []
      | none =>
        if opts.LogName = "" then []
        else if opts.Follow = true then [Capability.follow]
        else if opts.Download = true ∧ opts.DatabaseInstance ≠ "" then [Capability.download]
        else if opts.PrintLogs = true then [Capability.enumeratePrint]
        else [] := by
  unfold main
  simp only [getLogNames]
  rcases hr : w.DescribeDBLogFiles (getLogNamesInput ⟨opts⟩) with ⟨l, err⟩
  cases err with
  | some e => rfl
  | none =>
    simp only []
    by_cases hl : opts.LogName = ""
    · simp [hl, dispatched]
    · have hb : (opts.LogName != "") = true := by simpa using hl
      simp only [hb, if_true, if_neg hl]
      by_cases hf : opts.Follow = true
      · simp only [hf, if_true]
        have hne := followLoop_outcome_ne_ret_none ⟨opts⟩ opts.LogName w.portions "0"
        have hdf := dispatched_followLoop ⟨opts⟩ opts.LogName w.portions "0"
        unfold followLog
        split
        · simp [dispatched_append, dispatched, hdf]
        · rename_i h
          exact absurd h hne
        · simp [dispatched_append, dispatched, hdf]
        · simp [dispatched_append, dispatched, hdf]
        · simp [dispatched_append, dispatched, hdf]
      · simp only [hf, Bool.false_eq_true, if_false]
        rw [dispatched_mainSaveOrPrint]
        simp [dispatched]

/-- C9 (counterexample): with a log name and none of the flags `-f`, `-s`, `-p`,
`main` calls the enumeration and returns: it dispatches to none of the three
capabilities. -/
theorem main_dispatches_to_none :
    main (.ok sampleOpts) okWorld = ⟨[.describe ⟨"mydb", "error/log1"⟩], .ret ()⟩ ∧
    dispatched (main (.ok sampleOpts) okWorld).trace = [] := by
  decide

/-- C9 (amended): for every parsed set of options `main` first calls the
enumeration and then dispatches to at most one of the three capabilities; when the
enumeration succeeds and the log name is not empty it dispatches to exactly one as
soon as one is selected: to follow with `-f`; otherwise to download with `-s` and
a non-empty instance identifier; otherwise to printing with `-p`, and it then
prints the enumerated log names, one a line, and exits with status 0; with none
selected it dispatches to none. -/
theorem main_dispatches_at_most_one (opts : Opts) (w : World) :
    (dispatched (main (.ok opts) w).trace).length ≤ 1 ∧
    (main (.ok opts) w).trace.head? = some (.describe (getLogNamesInput ⟨opts⟩)) ∧
    ((w.DescribeDBLogFiles (getLogNamesInput ⟨opts⟩)).2 = none → opts.LogName ≠ "" →
      (opts.Follow = true → dispatched (main (.ok opts) w).trace = [.follow]) ∧
      (opts.Follow = false → opts.Download = true ∧ opts.DatabaseInstance ≠ "" →
        dispatched (main (.ok opts) w).trace = [.download]) ∧
      (opts.Follow = false → ¬ (opts.Download = true ∧ opts.DatabaseInstance ≠ "") →
        opts.PrintLogs = true →
        dispatched (main (.ok opts) w).trace = [.enumeratePrint])) ∧
    (opts.Follow = false → ¬ (opts.Download = true ∧ opts.DatabaseInstance ≠ "") →
      opts.PrintLogs = false → dispatched (main (.ok opts) w).trace = []) ∧
    (∀ names : List String,
      w.DescribeDBLogFiles (getLogNamesInput ⟨opts⟩) =
        (some ⟨names.map (fun n => some ⟨some n⟩)⟩, none) →
      opts.LogName ≠ "" → opts.Follow = false →
      ¬ (opts.Download = true ∧ opts.DatabaseInstance ≠ "") → opts.PrintLogs = true →
      main (.ok opts) w =
        ⟨.describe (getLogNamesInput ⟨opts⟩) :: .dispatch .enumeratePrint ::
          names.map (fun n => Effect.stdout (n ++ "\n")), .exited 0⟩) := by
  have hmain := dispatched_main opts w
  refine ⟨?_, ?_, ?_, ?_, ?_⟩
  · rw [hmain]
    repeat' split
    all_goals simp
  · unfold main mainSaveOrPrint
    simp only [getLogNames]
    repeat' split
    all_goals rfl
  · intro he hl
    rw [hmain, he]
    simp only [if_neg hl]
    refine ⟨?_, ?_, ?_⟩
    · intro hf
      simp [hf]
    · intro hf hd
      simp [hf, hd]
    · intro hf hd hp
      simp [hf, hd, hp]
  · intro hf hd hp
    rw [hmain]
    split
    · rfl
    · simp [hf, hd, hp]
  · intro names he hl hf hd hp
    have hb : (opts.LogName != "") = true := by simpa using hl
    have hc : (opts.Download && opts.DatabaseInstance != "") = false := by
      cases h : (opts.Download && opts.DatabaseInstance != "")
      · rfl
      · exact absurd (by simpa using h) hd
    simp [main, getLogNames, he, hb, hf, mainSaveOrPrint, hc, hp, printNames_names]

/-- Witness of C9 (amended): with `-p` and the log name "error/log1" the two
enumerated names are printed and the process exits with status 0. -/
theorem main_dispatches_at_most_one_witness :
    main (.ok { sampleOpts with PrintLogs := true }) okWorld =
      ⟨[.describe ⟨"mydb", "error/log1"⟩, .dispatch .enumeratePrint,
        .stdout "error/log1\n", .stdout "error/log2\n"], .exited 0⟩ :=
  (main_dispatches_at_most_one { sampleOpts with PrintLogs := true } okWorld).2.2.2.2
    ["error/log1", "error/log2"] rfl (by decide) rfl (by decide) rfl

end RdsDownloadLogs
